import Mathlib

/-!
Verification of the wire-format codec in `src/protocol.rs` of the valence
repository.  Values are encoded to byte lists and decoded from byte lists.

An encoder models `fn encode(&self, w: &mut impl Write) -> anyhow::Result<()>`:
its result is the pair of the bytes it appended to the sink before returning
together with `none` on success or `some msg` on failure — so a partial write
followed by an error is visible in the first component.

A decoder models `fn decode(r: &mut impl Read) -> anyhow::Result<Self>`: it
maps the unread bytes to `Except String (value × remaining bytes)`.
-/

namespace Valence

/-- Result of running an encoder: the bytes appended to the sink, and the
error it returned, if any. -/
abbrev EncRes := List Nat × Option String

/-- Sequencing of two encoder runs, as `a?; b?` on one sink: if `a` failed its
bytes stand and `b` never runs; otherwise the outputs concatenate and the
outcome is that of `b`. -/
def wseq (a b : EncRes) : EncRes :=
  match a.2 with
  | none => (a.1 ++ b.1, b.2)
  | some e => (a.1, some e)

/-- Read exactly `n` bytes off the front of the stream; the error is the
io::ErrorKind::UnexpectedEof failure a Read returns on a short stream. -/
def readBytes : Nat → List Nat → Except String (List Nat × List Nat)
  | 0, r => .ok ([], r)
  | _ + 1, [] => .error "unexpected end of input"
  | n + 1, b :: r =>
    match readBytes n r with
    | .error e => .error e
    | .ok (bs, rest) => .ok (b :: bs, rest)

/-- Big-endian bytes of `v`, exactly `w` of them (most significant first), as
byteorder::BigEndian writes a fixed-width unsigned integer. -/
def natToBE : Nat → Nat → List Nat
  | 0, _ => []
  | w + 1, v => natToBE w (v / 256) ++ [v % 256]

/-- Value of a big-endian byte string. -/
def beToNat (bs : List Nat) : Nat :=
  bs.foldl (fun a b => a * 256 + b) 0

/-- Encoder for a `w`-byte unsigned integer (u8, u16, u32, u64 at
`w` = 1, 2, 4, 8): the big-endian bytes, never an error. -/
def uEncode (w : Nat) (v : Nat) : EncRes :=
  (natToBE w v, none)

/-- Decoder for a `w`-byte unsigned integer. -/
def uDecode (w : Nat) (r : List Nat) : Except String (Nat × List Nat) :=
  match readBytes w r with
  | .error e => .error e
  | .ok (bs, rest) => .ok (beToNat bs, rest)

/-- Two's-complement reading of an unsigned value `n < 2 ^ bits` as a signed
integer of width `bits`. -/
def intOfTwos (bits : Nat) (n : Nat) : Int :=
  if n < 2 ^ (bits - 1) then (n : Int) else (n : Int) - 2 ^ bits

/-- Encoder for a `w`-byte signed integer (i8, i16, i32, i64): the big-endian
bytes of the two's-complement representation, never an error. -/
def iEncode (w : Nat) (v : Int) : EncRes :=
  (natToBE w (v % ((2 : Int) ^ (8 * w))).toNat, none)

/-- Decoder for a `w`-byte signed integer. -/
def iDecode (w : Nat) (r : List Nat) : Except String (Int × List Nat) :=
  match uDecode w r with
  | .error e => .error e
  | .ok (n, rest) => .ok (intOfTwos (8 * w) n, rest)

/-- Encoder for `bool`: one byte, `*self as u8`. -/
def boolEncode (b : Bool) : EncRes :=
  ([if b then 1 else 0], none)

/-- Decoder for `bool`: reads one byte `n`, demands `n < 2`, returns `n == 1`. -/
def boolDecode (r : List Nat) : Except String (Bool × List Nat) :=
  match r with
  | [] => .error "unexpected end of input"
  | n :: rest => if n < 2 then .ok (n == 1, rest) else .error "boolean is not 0 or 1"

/-- Encoder for `()`: writes nothing, never fails. -/
def unitEncode (_ : Unit) : EncRes :=
  ([], none)

/-- Decoder for `()`: consumes nothing, never fails. -/
def unitDecode (r : List Nat) : Except String (Unit × List Nat) :=
  .ok ((), r)

/-- An f32 is carried as its IEEE-754 bit pattern (a Nat below 2 ^ 32); it is
finite exactly when its 8 exponent bits are not all ones, which is what
`f32::is_finite` tests. -/
def isFinite32 (p : Nat) : Bool :=
  decide (p / 2 ^ 23 % 256 ≠ 255)

/-- An f64 bit pattern (below 2 ^ 64) is finite exactly when its 11 exponent
bits are not all ones. -/
def isFinite64 (p : Nat) : Bool :=
  decide (p / 2 ^ 52 % 2048 ≠ 2047)

/-- Encoder for `f32` on bit patterns: rejects a non-finite value, otherwise
writes the 4 pattern bytes big-endian. -/
def f32Encode (p : Nat) : EncRes :=
  if isFinite32 p then (natToBE 4 p, none)
  else ([], some "attempt to encode non-finite f32")

/-- Decoder for `f32` on bit patterns: reads 4 bytes, then rejects a
non-finite result. -/
def f32Decode (r : List Nat) : Except String (Nat × List Nat) :=
  match uDecode 4 r with
  | .error e => .error e
  | .ok (p, rest) =>
    if isFinite32 p then .ok (p, rest)
    else .error "attempt to decode non-finite f32"

/-- Encoder for `f64` on bit patterns. -/
def f64Encode (p : Nat) : EncRes :=
  if isFinite64 p then (natToBE 8 p, none)
  else ([], some "attempt to encode non-finite f64")

/-- Decoder for `f64` on bit patterns. -/
def f64Decode (r : List Nat) : Except String (Nat × List Nat) :=
  match uDecode 8 r with
  | .error e => .error e
  | .ok (p, rest) =>
    if isFinite64 p then .ok (p, rest)
    else .error "attempt to decode non-finite f64"

/-- Encoder for `Uuid`: its u128 value as 16 big-endian bytes. -/
def uuidEncode (p : Nat) : EncRes :=
  (natToBE 16 p, none)

/-- Decoder for `Uuid`. -/
def uuidDecode (r : List Nat) : Except String (Nat × List Nat) :=
  uDecode 16 r

/-- Encoder for `Option<T>`: a presence flag byte, then the payload only when
present (`true.encode(w).and_then(...)`). -/
def optionEncode (e : α → EncRes) : Option α → EncRes
  | some t => wseq (boolEncode true) (e t)
  | none => boolEncode false

/-- Decoder for `Option<T>`: a strict boolean flag, then the payload when the
flag was true. -/
def optionDecode (d : List Nat → Except String (α × List Nat))
    (r : List Nat) : Except String (Option α × List Nat) :=
  match boolDecode r with
  | .error e => .error e
  | .ok (true, rest) =>
    match d rest with
    | .error e => .error e
    | .ok (x, rest2) => .ok (some x, rest2)
  | .ok (false, rest) => .ok (none, rest)

/-- Modelled from the spec: the VarInt type lives in `src/var_int.rs`, which is
not among the provided sources; section 6 fixes its contract as a signed
32-bit integer written in 1 to 5 bytes of a continuation-bit scheme whose
values round-trip exactly.  This writes 7 low-order payload bits per byte,
least-significant group first, setting bit 7 on every byte but the last. -/
def varIntEncodeAux : Nat → Nat → List Nat
  | 0, _ => []
  | fuel + 1, u =>
    if u < 128 then [u]
    else (u % 128 + 128) :: varIntEncodeAux fuel (u / 128)

/-- Modelled from the spec: companion reader for `varIntEncodeAux`, at most 5
continuation-scheme bytes of a 32-bit VarInt. -/
def varIntDecodeAux : Nat → Nat → Nat → List Nat → Except String (Nat × List Nat)
  | 0, _, _, _ => .error "VarInt is too large"
  | _ + 1, _, _, [] => .error "unexpected end of input"
  | fuel + 1, shift, acc, b :: r =>
    if b < 128 then .ok (acc + b * 2 ^ shift, r)
    else varIntDecodeAux fuel (shift + 7) (acc + b % 128 * 2 ^ shift) r

/-- Modelled from the spec: VarInt encoder on the two's-complement image of a
signed 32-bit value. -/
def varIntEncode (v : Int) : EncRes :=
  (varIntEncodeAux 5 (v % ((2 : Int) ^ 32)).toNat, none)

/-- Modelled from the spec: VarInt decoder; the accumulated payload is reduced
to 32 bits and read as two's complement. -/
def varIntDecode (r : List Nat) : Except String (Int × List Nat) :=
  match varIntDecodeAux 5 0 0 r with
  | .error e => .error e
  | .ok (u, rest) => .ok (intOfTwos 32 (u % 2 ^ 32), rest)

/-- `MAX_PACKET_SIZE`: the maximum number of bytes in a single packet. -/
def MAX_PACKET_SIZE : Nat := 2097151

/-- The largest i32, the largest array length `encode_array_bounded` accepts
and the largest value a VarInt length can carry. -/
def i32MAX : Nat := 2147483647

/-- The largest usize on the 64-bit targets the crate runs on; the unbounded
collection impls pass it as their `max`. -/
def usizeMAX : Nat := 18446744073709551615

/-- Encode each element of a slice in order, stopping at the first failure,
as the `for t in s { t.encode(w)?; }` loop does. -/
def encodeList (e : α → EncRes) : List α → EncRes
  | [] => ([], none)
  | x :: xs => wseq (e x) (encodeList e xs)

/-- Decode exactly `n` elements in order, propagating the first failure, as
the `for _ in 0..len { res.push(T::decode(r)?); }` loop does. -/
def decodeN (d : List Nat → Except String (α × List Nat)) :
    Nat → List Nat → Except String (List α × List Nat)
  | 0, r => .ok ([], r)
  | n + 1, r =>
    match d r with
    | .error e => .error e
    | .ok (x, r2) =>
      match decodeN d n r2 with
      | .error e => .error e
      | .ok (xs, r3) => .ok (x :: xs, r3)

/-- Capacity `decode_array_bounded` hands to `Vec::with_capacity` before its
element loop: the claimed length, capped so the reservation never exceeds one
packet worth of bytes.  The reservation does not affect the decoded value. -/
def decodeCap (elemSize len : Nat) : Nat :=
  min (MAX_PACKET_SIZE / max elemSize 1) len

/-- `encode_array_bounded`: bounds-check the element count, check it is
VarInt-representable, write the VarInt count, then the elements in order.
The `assert!(min <= max)` in the source is a caller contract; every call site
satisfies it. -/
def encode_array_bounded (e : α → EncRes) (s : List α) (mn mx : Nat) : EncRes :=
  let len := s.length
  if mn ≤ len ∧ len ≤ mx then
    if len ≤ i32MAX then
      wseq (varIntEncode (len : Int)) (encodeList e s)
    else ([], some "Length of array exceeds i32::MAX")
  else ([], some "Length of array is out of bounds while encoding")

/-- `decode_array_bounded`: read the VarInt count, demand it nonnegative and
inside the bounds, then decode that many elements.  The capacity reservation
`Vec::with_capacity (decodeCap elemSize len)` happens between the check and
the loop and leaves the result unchanged. -/
def decode_array_bounded (d : List Nat → Except String (α × List Nat))
    (mn mx : Nat) (r : List Nat) : Except String (List α × List Nat) :=
  match varIntDecode r with
  | .error e => .error e
  | .ok (len, rest) =>
    if 0 ≤ len ∧ mn ≤ len.toNat ∧ len.toNat ≤ mx then
      decodeN d len.toNat rest
    else .error "Length of array is out of bounds while decoding"

/-- The `impl Encode for [T; N]` body: `encode_array_bounded(self, N, N, w)`;
the list models the array, so its length is `N`. -/
def fixedArrayEncode (e : α → EncRes) (N : Nat) (s : List α) : EncRes :=
  encode_array_bounded e s N N

/-- The `impl Decode for [T; N]` body: `decode_array_bounded(N, N, r)?`
followed by an infallible conversion to the array type. -/
def fixedArrayDecode (d : List Nat → Except String (α × List Nat))
    (N : Nat) (r : List Nat) : Except String (List α × List Nat) :=
  decode_array_bounded d N N r

/-- UTF-8 bytes of one Unicode scalar value, as `str` stores its characters
(1 to 4 bytes depending on magnitude). -/
def utf8EncodeChar (c : Nat) : List Nat :=
  if c < 128 then [c]
  else if c < 2048 then [192 + c / 64, 128 + c % 64]
  else if c < 65536 then [224 + c / 4096, 128 + c / 64 % 64, 128 + c % 64]
  else [240 + c / 262144, 128 + c / 4096 % 64, 128 + c / 64 % 64, 128 + c % 64]

/-- The UTF-8 byte string of a text value (`s.as_bytes()`); the text itself is
its list of Unicode scalar values (`s.chars()`). -/
def utf8Encode : List Nat → List Nat
  | [] => []
  | c :: cs => utf8EncodeChar c ++ utf8Encode cs

/-- UTF-8 validation and decoding as `String::from_utf8` performs it: a strict
decoder that rejects overlong forms, surrogate code points, values beyond
U+10FFFF, stray or missing continuation bytes. -/
def utf8Decode : List Nat → Except String (List Nat)
  | [] => .ok []
  | b :: r =>
    if b < 128 then
      match utf8Decode r with
      | .error e => .error e
      | .ok cs => .ok (b :: cs)
    else if b < 194 then .error "invalid utf-8 sequence"
    else if b < 224 then
      match r with
      | b2 :: r2 =>
        if 128 ≤ b2 ∧ b2 < 192 then
          match utf8Decode r2 with
          | .error e => .error e
          | .ok cs => .ok (((b - 192) * 64 + (b2 - 128)) :: cs)
        else .error "invalid utf-8 sequence"
      | [] => .error "invalid utf-8 sequence"
    else if b < 240 then
      match r with
      | b2 :: b3 :: r3 =>
        if (if b = 224 then 160 ≤ b2 ∧ b2 < 192
            else if b = 237 then 128 ≤ b2 ∧ b2 < 160
            else 128 ≤ b2 ∧ b2 < 192) ∧ 128 ≤ b3 ∧ b3 < 192 then
          match utf8Decode r3 with
          | .error e => .error e
          | .ok cs => .ok (((b - 224) * 4096 + (b2 - 128) * 64 + (b3 - 128)) :: cs)
        else .error "invalid utf-8 sequence"
      | _ => .error "invalid utf-8 sequence"
    else if b < 245 then
      match r with
      | b2 :: b3 :: b4 :: r4 =>
        if (if b = 240 then 144 ≤ b2 ∧ b2 < 192
            else if b = 244 then 128 ≤ b2 ∧ b2 < 144
            else 128 ≤ b2 ∧ b2 < 192) ∧ (128 ≤ b3 ∧ b3 < 192) ∧ 128 ≤ b4 ∧ b4 < 192 then
          match utf8Decode r4 with
          | .error e => .error e
          | .ok cs =>
            .ok (((b - 240) * 262144 + (b2 - 128) * 4096 + (b3 - 128) * 64 + (b4 - 128)) :: cs)
        else .error "invalid utf-8 sequence"
      | _ => .error "invalid utf-8 sequence"
    else .error "invalid utf-8 sequence"

/-- `encode_string_bounded`: bounds-check the character count of the text,
then write its UTF-8 bytes as an array bounded only by usize — so the VarInt
length written is the byte count. -/
def encode_string_bounded (s : List Nat) (mn mx : Nat) : EncRes :=
  let char_count := s.length
  if mn ≤ char_count ∧ char_count ≤ mx then
    encode_array_bounded (uEncode 1) (utf8Encode s) 0 usizeMAX
  else ([], some "Char count of string is out of bounds while encoding")

/-- `decode_string_bounded`: read a byte array bounded by
`[mn, mx.saturating_mul(4)]`, validate it as UTF-8, then bounds-check the
character count of the result. -/
def decode_string_bounded (mn mx : Nat) (r : List Nat) :
    Except String (List Nat × List Nat) :=
  match decode_array_bounded (uDecode 1) mn (min (mx * 4) usizeMAX) r with
  | .error e => .error e
  | .ok (bytes, rest) =>
    match utf8Decode bytes with
    | .error e => .error e
    | .ok s =>
      if mn ≤ s.length ∧ s.length ≤ mx then .ok (s, rest)
      else .error "Char count of string is out of bounds while decoding"

/-- `BoundedInt::encode`: widen the contained value to i64 through `Into`,
demand it inside `[mn, mx]`, then delegate to the primitive encoder. -/
def boundedIntEncode (toI64 : α → Int) (e : α → EncRes) (mn mx : Int) (v : α) : EncRes :=
  if mn ≤ toI64 v ∧ toI64 v ≤ mx then e v
  else ([], some "Integer is not in bounds while encoding")

/-- `BoundedInt::decode`: run the primitive decoder, then demand the widened
result inside `[mn, mx]` — never clamping it. -/
def boundedIntDecode (toI64 : α → Int) (d : List Nat → Except String (α × List Nat))
    (mn mx : Int) (r : List Nat) : Except String (α × List Nat) :=
  match d r with
  | .error e => .error e
  | .ok (x, rest) =>
    if mn ≤ toI64 x ∧ toI64 x ≤ mx then .ok (x, rest)
    else .error "Integer is not in bounds while decoding"

theorem readBytes_append : ∀ (bs rest : List Nat),
    readBytes bs.length (bs ++ rest) = .ok (bs, rest) := by
  intro bs
  induction bs with
  | nil => intro rest; rfl
  | cons b bs ih => intro rest; simp [readBytes, ih]

theorem readBytes_exact (n : Nat) (bs rest : List Nat) (h : bs.length = n) :
    readBytes n (bs ++ rest) = .ok (bs, rest) := by
  subst h
  exact readBytes_append bs rest

theorem natToBE_length : ∀ (w v : Nat), (natToBE w v).length = w := by
  intro w
  induction w with
  | zero => intro v; rfl
  | succ w ih => intro v; simp [natToBE, ih]

theorem beToNat_append_one (xs : List Nat) (b : Nat) :
    beToNat (xs ++ [b]) = beToNat xs * 256 + b := by
  simp [beToNat, List.foldl_append]

theorem beToNat_natToBE : ∀ (w v : Nat), v < 256 ^ w → beToNat (natToBE w v) = v := by
  intro w
  induction w with
  | zero =>
    intro v hv
    have hv0 : v = 0 := by simpa using hv
    subst hv0; rfl
  | succ w ih =>
    intro v hv
    have hdiv : v / 256 < 256 ^ w := by
      apply Nat.div_lt_of_lt_mul
      rw [mul_comm, ← pow_succ]
      exact hv
    rw [natToBE, beToNat_append_one, ih (v / 256) hdiv]
    omega

theorem uDecode_natToBE (w v : Nat) (h : v < 256 ^ w) (rest : List Nat) :
    uDecode w (natToBE w v ++ rest) = .ok (v, rest) := by
  unfold uDecode
  rw [readBytes_exact w (natToBE w v) rest (natToBE_length w v)]
  simp [beToNat_natToBE w v h]

theorem iDecode_iEncode1 (v : Int) (h1 : -128 ≤ v) (h2 : v < 128) (rest : List Nat) :
    iDecode 1 ((iEncode 1 v).1 ++ rest) = .ok (v, rest) := by
  have hM : ((2 : Int) ^ (8 * 1)) = 256 := by norm_num
  show iDecode 1 (natToBE 1 (v % ((2 : Int) ^ (8 * 1))).toNat ++ rest) = .ok (v, rest)
  rw [hM]
  have hn : (v % (256 : Int)).toNat < 256 ^ 1 := by omega
  unfold iDecode
  rw [uDecode_natToBE 1 _ hn rest]
  simp only [intOfTwos]
  split_ifs <;> simp_all <;> omega

theorem iDecode_iEncode2 (v : Int) (h1 : -32768 ≤ v) (h2 : v < 32768) (rest : List Nat) :
    iDecode 2 ((iEncode 2 v).1 ++ rest) = .ok (v, rest) := by
  have hM : ((2 : Int) ^ (8 * 2)) = 65536 := by norm_num
  show iDecode 2 (natToBE 2 (v % ((2 : Int) ^ (8 * 2))).toNat ++ rest) = .ok (v, rest)
  rw [hM]
  have hn : (v % (65536 : Int)).toNat < 256 ^ 2 := by norm_num; omega
  unfold iDecode
  rw [uDecode_natToBE 2 _ hn rest]
  simp only [intOfTwos]
  split_ifs <;> simp_all <;> omega

theorem iDecode_iEncode4 (v : Int) (h1 : -2147483648 ≤ v) (h2 : v < 2147483648)
    (rest : List Nat) : iDecode 4 ((iEncode 4 v).1 ++ rest) = .ok (v, rest) := by
  have hM : ((2 : Int) ^ (8 * 4)) = 4294967296 := by norm_num
  show iDecode 4 (natToBE 4 (v % ((2 : Int) ^ (8 * 4))).toNat ++ rest) = .ok (v, rest)
  rw [hM]
  have hn : (v % (4294967296 : Int)).toNat < 256 ^ 4 := by norm_num; omega
  unfold iDecode
  rw [uDecode_natToBE 4 _ hn rest]
  simp only [intOfTwos]
  split_ifs <;> simp_all <;> omega

theorem iDecode_iEncode8 (v : Int) (h1 : -9223372036854775808 ≤ v)
    (h2 : v < 9223372036854775808) (rest : List Nat) :
    iDecode 8 ((iEncode 8 v).1 ++ rest) = .ok (v, rest) := by
  have hM : ((2 : Int) ^ (8 * 8)) = 18446744073709551616 := by norm_num
  show iDecode 8 (natToBE 8 (v % ((2 : Int) ^ (8 * 8))).toNat ++ rest) = .ok (v, rest)
  rw [hM]
  have hn : (v % (18446744073709551616 : Int)).toNat < 256 ^ 8 := by norm_num; omega
  unfold iDecode
  rw [uDecode_natToBE 8 _ hn rest]
  simp only [intOfTwos]
  split_ifs <;> simp_all <;> omega

theorem varIntEncodeAux_spec : ∀ (fuel : Nat), ∀ (u shift acc : Nat) (rest : List Nat),
    0 < fuel → u < 128 ^ fuel →
    varIntDecodeAux fuel shift acc (varIntEncodeAux fuel u ++ rest) =
      .ok (acc + u * 2 ^ shift, rest) := by
  intro fuel
  induction fuel with
  | zero => intro u shift acc rest h _; omega
  | succ f ih =>
    intro u shift acc rest _ hu
    by_cases hsmall : u < 128
    · simp [varIntEncodeAux, hsmall, varIntDecodeAux]
    · have hf : 0 < f := by
        rcases Nat.eq_zero_or_pos f with h0 | h0
        · subst h0; rw [pow_one] at hu; exact absurd hu hsmall
        · exact h0
      have hdiv : u / 128 < 128 ^ f := by
        apply Nat.div_lt_of_lt_mul
        rw [mul_comm, ← pow_succ]
        exact hu
      have hb : ¬ (u % 128 + 128 < 128) := by omega
      have hmod : (u % 128 + 128) % 128 = u % 128 := by omega
      rw [varIntEncodeAux, if_neg hsmall, List.cons_append, varIntDecodeAux,
        if_neg hb, hmod, ih (u / 128) (shift + 7) _ rest hf hdiv]
      have hp : (2 : Nat) ^ (shift + 7) = 2 ^ shift * 128 := by
        rw [pow_add]; norm_num
      have hq : 128 * (u / 128) + u % 128 = u := Nat.div_add_mod u 128
      rw [hp]
      have hsum : acc + u % 128 * 2 ^ shift + u / 128 * (2 ^ shift * 128) =
          acc + u * 2 ^ shift := by
        conv_rhs => rw [← hq]
        ring
      rw [hsum]

theorem varIntDecode_varIntEncode (n : Nat) (h : n < 2 ^ 31) (rest : List Nat) :
    varIntDecode ((varIntEncode (n : Int)).1 ++ rest) = .ok ((n : Int), rest) := by
  norm_num at h
  have h32 : ((n : Int) % ((2 : Int) ^ 32)) = (n : Int) := by
    apply Int.emod_eq_of_lt
    · positivity
    · have : ((2 : Int) ^ 32) = 4294967296 := by norm_num
      omega
  show varIntDecode (varIntEncodeAux 5 ((n : Int) % ((2 : Int) ^ 32)).toNat ++ rest) =
    .ok ((n : Int), rest)
  rw [h32, Int.toNat_natCast]
  have hb : n < 128 ^ 5 := by
    have : (128 : Nat) ^ 5 = 34359738368 := by norm_num
    omega
  unfold varIntDecode
  rw [varIntEncodeAux_spec 5 n 0 0 rest (by norm_num) hb]
  have hm : (0 + n * 2 ^ 0) % 2 ^ 32 = n := by
    have : (2 : Nat) ^ 32 = 4294967296 := by norm_num
    omega
  simp only [hm]
  simp [intOfTwos]
  omega

theorem encodeList_err_none (e : α → EncRes) : ∀ (s : List α),
    (∀ x ∈ s, (e x).2 = none) → (encodeList e s).2 = none := by
  intro s
  induction s with
  | nil => intro _; rfl
  | cons x xs ih =>
    intro h
    have hx : (e x).2 = none := h x (by simp)
    simp [encodeList, wseq, hx]
    exact ih fun y hy => h y (by simp [hy])

theorem encodeList_bytes : ∀ (bs : List Nat),
    (∀ b ∈ bs, b < 256) → encodeList (uEncode 1) bs = (bs, none) := by
  intro bs
  induction bs with
  | nil => intro _; rfl
  | cons b bs ih =>
    intro h
    have hb : b % 256 = b := Nat.mod_eq_of_lt (h b (by simp))
    have hrec := ih fun y hy => h y (by simp [hy])
    simp [encodeList, uEncode, natToBE, wseq, hb, hrec]

theorem utf8EncodeChar_lt (c : Nat) (h : c < 1114112) :
    ∀ b ∈ utf8EncodeChar c, b < 256 := by
  unfold utf8EncodeChar
  split_ifs <;> intro b hb <;> simp at hb <;> (try casesm* _ ∨ _) <;> omega

theorem utf8Encode_lt : ∀ (s : List Nat), (∀ c ∈ s, c < 1114112) →
    ∀ b ∈ utf8Encode s, b < 256 := by
  intro s
  induction s with
  | nil => intro _ b hb; simp [utf8Encode] at hb
  | cons c cs ih =>
    intro h b hb
    rw [utf8Encode, List.mem_append] at hb
    rcases hb with hb | hb
    · exact utf8EncodeChar_lt c (h c (by simp)) b hb
    · exact ih (fun y hy => h y (by simp [hy])) b hb

theorem utf8Encode_replicate_97 : ∀ (n : Nat),
    utf8Encode (List.replicate n 97) = List.replicate n 97 := by
  intro n
  induction n with
  | zero => rfl
  | succ n ih =>
    have hc : utf8EncodeChar 97 = [97] := rfl
    simp [List.replicate_succ, utf8Encode, hc, ih]

theorem decodeN_succ (d : List Nat → Except String (α × List Nat)) (n : Nat)
    (r : List Nat) :
    decodeN d (n + 1) r =
      match d r with
      | .error e => .error e
      | .ok (x, r2) =>
        match decodeN d n r2 with
        | .error e => .error e
        | .ok (xs, r3) => .ok (x :: xs, r3) := by
  rfl

theorem uDecode_uEncode_nil (w v : Nat) (h : v < 256 ^ w) :
    uDecode w (uEncode w v).1 = .ok (v, []) := by
  have hx := uDecode_natToBE w v h []
  simpa [uEncode] using hx

theorem f32_roundtrip_aux (p : Nat) (hlt : p < 2 ^ 32) (hf : isFinite32 p = true) :
    f32Decode (f32Encode p).1 = .ok (p, []) := by
  have h256 : p < 256 ^ 4 := by
    have he : (256 : Nat) ^ 4 = 2 ^ 32 := by norm_num
    omega
  have henc : (f32Encode p).1 = natToBE 4 p := by simp [f32Encode, hf]
  rw [henc]
  unfold f32Decode
  rw [show natToBE 4 p = natToBE 4 p ++ [] by simp, uDecode_natToBE 4 p h256 []]
  simp [hf]

theorem f64_roundtrip_aux (p : Nat) (hlt : p < 2 ^ 64) (hf : isFinite64 p = true) :
    f64Decode (f64Encode p).1 = .ok (p, []) := by
  have h256 : p < 256 ^ 8 := by
    have he : (256 : Nat) ^ 8 = 2 ^ 64 := by norm_num
    omega
  have henc : (f64Encode p).1 = natToBE 8 p := by simp [f64Encode, hf]
  rw [henc]
  unfold f64Decode
  rw [show natToBE 8 p = natToBE 8 p ++ [] by simp, uDecode_natToBE 8 p h256 []]
  simp [hf]

/-- Claim C9: boolean decode consumes one byte and succeeds exactly when that
byte is 0x00 or 0x01 — 0x00 decodes to false, 0x01 to true, and every other
byte value is the malformed-input error, never a coerced boolean. -/
theorem bool_decode_strict (n : Nat) (rest : List Nat) :
    boolDecode (n :: rest) =
      if n = 0 then .ok (false, rest)
      else if n = 1 then .ok (true, rest)
      else .error "boolean is not 0 or 1" := by
  rcases n with _ | _ | n <;> simp [boolDecode]

/-- Claim C2 (amended): encoding the absent optional writes exactly one byte,
and encoding a present optional whose payload is the zero-size unit type also
writes exactly one byte — the presence flag alone, since the unit payload
encodes to zero bytes; the unit decoder likewise consumes nothing. -/
theorem option_unit_sizes :
    optionEncode unitEncode none = ([0], none) ∧
    (optionEncode unitEncode none).1.length = 1 ∧
    optionEncode unitEncode (some ()) = ([1], none) ∧
    (optionEncode unitEncode (some ())).1.length = 1 ∧
    unitEncode () = ([], none) ∧
    (∀ r : List Nat, unitDecode r = .ok ((), r)) :=
  ⟨rfl, rfl, rfl, rfl, rfl, fun _ => rfl⟩

/-- Claim C2 counterexample: the present optional with the zero-size unit
payload encodes successfully to one byte, not the two bytes the claim
states. -/
theorem option_unit_two_bytes_ce :
    (optionEncode unitEncode (some ())).2 = none ∧
    (optionEncode unitEncode (some ())).1.length ≠ 2 :=
  ⟨rfl, by decide⟩

/-- Claim C8: both float widths reject every non-finite bit pattern at encode
time with nothing written, and a successful decode never returns a non-finite
bit pattern. -/
theorem nonfinite_rejected :
    (∀ p : Nat, ¬ isFinite32 p = true →
      f32Encode p = ([], some "attempt to encode non-finite f32")) ∧
    (∀ p : Nat, ¬ isFinite64 p = true →
      f64Encode p = ([], some "attempt to encode non-finite f64")) ∧
    (∀ (r : List Nat) (v : Nat) (rest : List Nat),
      f32Decode r = .ok (v, rest) → isFinite32 v = true) ∧
    (∀ (r : List Nat) (v : Nat) (rest : List Nat),
      f64Decode r = .ok (v, rest) → isFinite64 v = true) := by
  refine ⟨?_, ?_, ?_, ?_⟩
  · intro p hp; simp [f32Encode, hp]
  · intro p hp; simp [f64Encode, hp]
  · intro r v rest h
    unfold f32Decode at h
    rcases hu : uDecode 4 r with e | ⟨p, rest2⟩ <;> rw [hu] at h
    · simp at h
    · by_cases hf : isFinite32 p = true
      · simp only [hf, if_true] at h
        cases h
        exact hf
      · simp only [hf, if_false] at h
        simp at h
  · intro r v rest h
    unfold f64Decode at h
    rcases hu : uDecode 8 r with e | ⟨p, rest2⟩ <;> rw [hu] at h
    · simp at h
    · by_cases hf : isFinite64 p = true
      · simp only [hf, if_true] at h
        cases h
        exact hf
      · simp only [hf, if_false] at h
        simp at h

/-- Claim C8 witness: positive infinity rejected at both widths, and the
bit pattern of 1.0 decoding finitely at both widths. -/
theorem nonfinite_rejected_witness :
    (¬ isFinite32 2139095040 = true ∧
      f32Encode 2139095040 = ([], some "attempt to encode non-finite f32")) ∧
    (¬ isFinite64 9218868437227405312 = true ∧
      f64Encode 9218868437227405312 = ([], some "attempt to encode non-finite f64")) ∧
    (f32Decode [63, 128, 0, 0] = .ok (1065353216, []) ∧ isFinite32 1065353216 = true) ∧
    (f64Decode [63, 240, 0, 0, 0, 0, 0, 0] = .ok (4607182418800017408, []) ∧
      isFinite64 4607182418800017408 = true) := by
  refine ⟨⟨by decide, nonfinite_rejected.1 2139095040 (by decide)⟩,
    ⟨by decide, nonfinite_rejected.2.1 9218868437227405312 (by decide)⟩,
    ⟨by rfl, nonfinite_rejected.2.2.1 [63, 128, 0, 0] 1065353216 [] (by rfl)⟩,
    ⟨by rfl, nonfinite_rejected.2.2.2 [63, 240, 0, 0, 0, 0, 0, 0] 4607182418800017408 [] (by rfl)⟩⟩

/-- Claim C7: every primitive scalar codec round-trips every in-domain value —
booleans, unsigned and signed integers of 1, 2, 4 and 8 bytes, both float
widths on finite bit patterns, and the 128-bit UUID. -/
theorem primitive_roundtrip (b : Bool)
    (n1 : Nat) (h1 : n1 < 2 ^ 8) (n2 : Nat) (h2 : n2 < 2 ^ 16)
    (n4 : Nat) (h4 : n4 < 2 ^ 32) (n8 : Nat) (h8 : n8 < 2 ^ 64)
    (i1 : Int) (g1 : -128 ≤ i1 ∧ i1 < 128)
    (i2 : Int) (g2 : -32768 ≤ i2 ∧ i2 < 32768)
    (i4 : Int) (g4 : -2147483648 ≤ i4 ∧ i4 < 2147483648)
    (i8 : Int) (g8 : -9223372036854775808 ≤ i8 ∧ i8 < 9223372036854775808)
    (p4 : Nat) (f4 : p4 < 2 ^ 32 ∧ isFinite32 p4 = true)
    (p8 : Nat) (f8 : p8 < 2 ^ 64 ∧ isFinite64 p8 = true)
    (u : Nat) (hu : u < 2 ^ 128) :
    boolDecode (boolEncode b).1 = .ok (b, []) ∧
    uDecode 1 (uEncode 1 n1).1 = .ok (n1, []) ∧
    uDecode 2 (uEncode 2 n2).1 = .ok (n2, []) ∧
    uDecode 4 (uEncode 4 n4).1 = .ok (n4, []) ∧
    uDecode 8 (uEncode 8 n8).1 = .ok (n8, []) ∧
    iDecode 1 (iEncode 1 i1).1 = .ok (i1, []) ∧
    iDecode 2 (iEncode 2 i2).1 = .ok (i2, []) ∧
    iDecode 4 (iEncode 4 i4).1 = .ok (i4, []) ∧
    iDecode 8 (iEncode 8 i8).1 = .ok (i8, []) ∧
    f32Decode (f32Encode p4).1 = .ok (p4, []) ∧
    f64Decode (f64Encode p8).1 = .ok (p8, []) ∧
    uuidDecode (uuidEncode u).1 = .ok (u, []) := by
  refine ⟨?_, ?_, ?_, ?_, ?_, ?_, ?_, ?_, ?_, ?_, ?_, ?_⟩
  · cases b <;> rfl
  · exact uDecode_uEncode_nil 1 n1 (by norm_num at h1 ⊢; omega)
  · exact uDecode_uEncode_nil 2 n2 (by norm_num at h2 ⊢; omega)
  · exact uDecode_uEncode_nil 4 n4 (by norm_num at h4 ⊢; omega)
  · exact uDecode_uEncode_nil 8 n8 (by norm_num at h8 ⊢; omega)
  · simpa using iDecode_iEncode1 i1 g1.1 g1.2 []
  · simpa using iDecode_iEncode2 i2 g2.1 g2.2 []
  · simpa using iDecode_iEncode4 i4 g4.1 g4.2 []
  · simpa using iDecode_iEncode8 i8 g8.1 g8.2 []
  · exact f32_roundtrip_aux p4 f4.1 f4.2
  · exact f64_roundtrip_aux p8 f8.1 f8.2
  · show uDecode 16 (natToBE 16 u) = .ok (u, [])
    rw [show natToBE 16 u = natToBE 16 u ++ [] by simp]
    exact uDecode_natToBE 16 u (by norm_num at hu ⊢; omega) []

/-- Claim C7 witness: concrete round-trips at every primitive width. -/
theorem primitive_roundtrip_witness :
    ((200 : Nat) < 2 ^ 8 ∧ (-5 : Int) < 128 ∧ isFinite32 1065353216 = true) ∧
    (boolDecode (boolEncode true).1 = .ok (true, []) ∧
      uDecode 1 (uEncode 1 200).1 = .ok (200, []) ∧
      uDecode 2 (uEncode 2 40000).1 = .ok (40000, []) ∧
      uDecode 4 (uEncode 4 3000000000).1 = .ok (3000000000, []) ∧
      uDecode 8 (uEncode 8 10000000000000000000).1 = .ok (10000000000000000000, []) ∧
      iDecode 1 (iEncode 1 (-5)).1 = .ok (-5, []) ∧
      iDecode 2 (iEncode 2 (-30000)).1 = .ok (-30000, []) ∧
      iDecode 4 (iEncode 4 (-2000000000)).1 = .ok (-2000000000, []) ∧
      iDecode 8 (iEncode 8 (-9000000000000000000)).1 = .ok (-9000000000000000000, []) ∧
      f32Decode (f32Encode 1065353216).1 = .ok (1065353216, []) ∧
      f64Decode (f64Encode 4607182418800017408).1 = .ok (4607182418800017408, []) ∧
      uuidDecode (uuidEncode 340282366920938463463374607431768211455).1 =
        .ok (340282366920938463463374607431768211455, [])) := by
  refine ⟨⟨by decide, by decide, by decide⟩, ?_⟩
  exact primitive_roundtrip true
    200 (by norm_num) 40000 (by norm_num) 3000000000 (by norm_num)
    10000000000000000000 (by norm_num)
    (-5) (by norm_num) (-30000) (by norm_num) (-2000000000) (by norm_num)
    (-9000000000000000000) (by norm_num)
    1065353216 ⟨by norm_num, by decide⟩
    4607182418800017408 ⟨by norm_num, by decide⟩
    340282366920938463463374607431768211455 (by norm_num)

/-- Claim C5: a BoundedInt with bounds [mn, mx] in the signed 64-bit domain
encodes by widening the value to 64 bits and fails exactly when the widened
value is outside the bounds; decode runs the primitive decoder first and then
fails exactly when the widened result is outside the bounds — the value is
never clamped; values exactly at either bound succeed in both directions. -/
theorem bounded_int_codec {α : Type} (toI64 : α → Int) (e : α → EncRes)
    (d : List Nat → Except String (α × List Nat)) (mn mx : Int) (v : α)
    (henc : (e v).2 = none) (hle : mn ≤ mx) :
    ((boundedIntEncode toI64 e mn mx v).2 = none ↔ mn ≤ toI64 v ∧ toI64 v ≤ mx) ∧
    (mn ≤ toI64 v ∧ toI64 v ≤ mx → boundedIntEncode toI64 e mn mx v = e v) ∧
    (toI64 v = mn ∨ toI64 v = mx → (boundedIntEncode toI64 e mn mx v).2 = none) ∧
    (∀ (r : List Nat) (x : α) (rest : List Nat), d r = .ok (x, rest) →
      ((boundedIntDecode toI64 d mn mx r = .ok (x, rest)) ↔
        (mn ≤ toI64 x ∧ toI64 x ≤ mx)) ∧
      (¬ (mn ≤ toI64 x ∧ toI64 x ≤ mx) →
        boundedIntDecode toI64 d mn mx r =
          .error "Integer is not in bounds while decoding") ∧
      (toI64 x = mn ∨ toI64 x = mx →
        boundedIntDecode toI64 d mn mx r = .ok (x, rest))) := by
  refine ⟨?_, ?_, ?_, ?_⟩
  · by_cases hbv : mn ≤ toI64 v ∧ toI64 v ≤ mx
    · simp [boundedIntEncode, hbv, henc]
    · simp [boundedIntEncode, hbv]
  · intro hbv; simp [boundedIntEncode, hbv]
  · intro hor
    have hbv : mn ≤ toI64 v ∧ toI64 v ≤ mx := by rcases hor with h | h <;> omega
    simp [boundedIntEncode, hbv, henc]
  · intro r x rest h
    have hd : boundedIntDecode toI64 d mn mx r =
        if mn ≤ toI64 x ∧ toI64 x ≤ mx then .ok (x, rest)
        else .error "Integer is not in bounds while decoding" := by
      unfold boundedIntDecode; rw [h]
    refine ⟨?_, ?_, ?_⟩
    · rw [hd]
      by_cases hb : mn ≤ toI64 x ∧ toI64 x ≤ mx
      · simp [hb]
      · simp [hb]
    · intro hb; rw [hd, if_neg hb]
    · intro hor
      have hb : mn ≤ toI64 x ∧ toI64 x ≤ mx := by rcases hor with h2 | h2 <;> omega
      rw [hd, if_pos hb]

/-- Claim C5 witness: an i8-backed BoundedInt with bounds [-5, 10], holding
exactly the upper bound, satisfies the encode-success iff. -/
theorem bounded_int_codec_witness :
    ((iEncode 1 (10 : Int)).2 = none ∧ (-5 : Int) ≤ 10) ∧
    ((boundedIntEncode (fun x => x) (iEncode 1) (-5) 10 10).2 = none ↔
      (-5 : Int) ≤ 10 ∧ (10 : Int) ≤ 10) :=
  ⟨⟨rfl, by norm_num⟩,
    (bounded_int_codec (fun x => x) (iEncode 1) (iDecode 1) (-5) 10 10 rfl
      (by norm_num)).1⟩

/-- Claim C10: a bounds violation while encoding a BoundedInt, a bounded
array (count out of bounds or beyond the VarInt maximum), or a bounded string
is reported before any byte is written, so the sink is left unchanged. -/
theorem bounds_error_writes_nothing :
    (∀ (α : Type) (toI64 : α → Int) (e : α → EncRes) (mn mx : Int) (v : α),
      ¬ (mn ≤ toI64 v ∧ toI64 v ≤ mx) →
      boundedIntEncode toI64 e mn mx v =
        ([], some "Integer is not in bounds while encoding")) ∧
    (∀ (α : Type) (e : α → EncRes) (s : List α) (mn mx : Nat),
      ¬ (mn ≤ s.length ∧ s.length ≤ mx) →
      encode_array_bounded e s mn mx =
        ([], some "Length of array is out of bounds while encoding")) ∧
    (∀ (α : Type) (e : α → EncRes) (s : List α) (mn mx : Nat),
      mn ≤ s.length ∧ s.length ≤ mx → ¬ s.length ≤ i32MAX →
      encode_array_bounded e s mn mx = ([], some "Length of array exceeds i32::MAX")) ∧
    (∀ (s : List Nat) (mn mx : Nat),
      ¬ (mn ≤ s.length ∧ s.length ≤ mx) →
      encode_string_bounded s mn mx =
        ([], some "Char count of string is out of bounds while encoding")) := by
  refine ⟨?_, ?_, ?_, ?_⟩
  · intro α toI64 e mn mx v h; simp [boundedIntEncode, h]
  · intro α e s mn mx h; simp [encode_array_bounded, h]
  · intro α e s mn mx h1 h2; simp [encode_array_bounded, h1, h2]
  · intro s mn mx h; simp [encode_string_bounded, h]

/-- Claim C10 witness: an out-of-bounds BoundedInt value, a 0-element array
under bounds [1, 5], and a 4-character string under bounds [0, 3] each fail
with the empty output. -/
theorem bounds_error_writes_nothing_witness :
    (¬ ((0 : Int) ≤ 6 ∧ (6 : Int) ≤ 5) ∧
      boundedIntEncode (fun x => x) (iEncode 1) 0 5 6 =
        ([], some "Integer is not in bounds while encoding")) ∧
    (¬ ((1 : Nat) ≤ ([] : List Nat).length ∧ ([] : List Nat).length ≤ 5) ∧
      encode_array_bounded (uEncode 1) ([] : List Nat) 1 5 =
        ([], some "Length of array is out of bounds while encoding")) ∧
    (¬ ((0 : Nat) ≤ ([97, 97, 97, 97] : List Nat).length ∧
        ([97, 97, 97, 97] : List Nat).length ≤ 3) ∧
      encode_string_bounded [97, 97, 97, 97] 0 3 =
        ([], some "Char count of string is out of bounds while encoding")) :=
  ⟨⟨by decide, bounds_error_writes_nothing.1 Int (fun x => x) (iEncode 1) 0 5 6 (by decide)⟩,
    ⟨by decide, bounds_error_writes_nothing.2.1 Nat (uEncode 1) [] 1 5 (by decide)⟩,
    ⟨by decide, bounds_error_writes_nothing.2.2.2 [97, 97, 97, 97] 0 3 (by decide)⟩⟩

/-- Claim C6: bounded-array encode fails on an element count outside the
bounds or beyond the VarInt maximum, and otherwise writes the VarInt count
followed by the elements in order; decode reads the VarInt count, fails when
it is negative or outside the bounds, and otherwise decodes exactly that many
elements, propagating the first element failure immediately; a 0-element
array under bounds [1, 5] fails to encode and a 5-element array under bounds
[0, 5] round-trips. -/
theorem bounded_array_codec {α : Type} (e : α → EncRes)
    (d : List Nat → Except String (α × List Nat)) (mn mx : Nat) (s : List α) :
    (¬ (mn ≤ s.length ∧ s.length ≤ mx) →
      encode_array_bounded e s mn mx =
        ([], some "Length of array is out of bounds while encoding")) ∧
    (mn ≤ s.length ∧ s.length ≤ mx → ¬ s.length ≤ i32MAX →
      encode_array_bounded e s mn mx = ([], some "Length of array exceeds i32::MAX")) ∧
    (mn ≤ s.length ∧ s.length ≤ mx → s.length ≤ i32MAX →
      encode_array_bounded e s mn mx =
        wseq (varIntEncode (s.length : Int)) (encodeList e s)) ∧
    (∀ (r : List Nat) (len : Int) (rest : List Nat), varIntDecode r = .ok (len, rest) →
      ((len < 0 ∨ ¬ (mn ≤ len.toNat ∧ len.toNat ≤ mx)) →
        decode_array_bounded d mn mx r =
          .error "Length of array is out of bounds while decoding") ∧
      (0 ≤ len ∧ mn ≤ len.toNat ∧ len.toNat ≤ mx →
        decode_array_bounded d mn mx r = decodeN d len.toNat rest)) ∧
    (∀ (n : Nat) (r : List Nat) (msg : String), d r = .error msg →
      decodeN d (n + 1) r = .error msg) ∧
    encode_array_bounded (uEncode 1) ([] : List Nat) 1 5 =
      ([], some "Length of array is out of bounds while encoding") ∧
    decode_array_bounded (uDecode 1) 0 5
      ((encode_array_bounded (uEncode 1) [9, 8, 7, 6, 5] 0 5).1) = .ok ([9, 8, 7, 6, 5], []) := by
  refine ⟨?_, ?_, ?_, ?_, ?_, ?_, ?_⟩
  · intro h; simp [encode_array_bounded, h]
  · intro h1 h2; simp [encode_array_bounded, h1, h2]
  · intro h1 h2; simp [encode_array_bounded, h1, h2]
  · intro r len rest h
    have hd : decode_array_bounded d mn mx r =
        if 0 ≤ len ∧ mn ≤ len.toNat ∧ len.toNat ≤ mx then decodeN d len.toNat rest
        else .error "Length of array is out of bounds while decoding" := by
      unfold decode_array_bounded; rw [h]
    refine ⟨?_, ?_⟩
    · intro hbad
      rw [hd, if_neg]
      intro hc
      rcases hbad with hb | hb <;> omega
    · intro hgood; rw [hd, if_pos hgood]
  · intro n r msg h
    rw [decodeN_succ, h]
  · rfl
  · rfl

/-- Claim C6 witness: a 5-element array under bounds [0, 5] takes the
successful encode branch, writing the VarInt count then the elements. -/
theorem bounded_array_codec_witness :
    ((0 : Nat) ≤ ([9, 8, 7, 6, 5] : List Nat).length ∧
      ([9, 8, 7, 6, 5] : List Nat).length ≤ 5 ∧
      ([9, 8, 7, 6, 5] : List Nat).length ≤ i32MAX) ∧
    encode_array_bounded (uEncode 1) [9, 8, 7, 6, 5] 0 5 =
      wseq (varIntEncode (([9, 8, 7, 6, 5] : List Nat).length : Int))
        (encodeList (uEncode 1) [9, 8, 7, 6, 5]) := by
  refine ⟨⟨by decide, by decide, by decide⟩, ?_⟩
  exact (bounded_array_codec (uEncode 1) (uDecode 1) 0 5 [9, 8, 7, 6, 5]).2.2.1
    ⟨by decide, by decide⟩ (by decide)

/-- Claim C1 (amended): a fixed-size array of compile-time length N encodes
as a VarInt length equal to N followed by the N elements, and decodes by
reading a VarInt length, failing unless it equals N, then reading exactly N
elements — the element count does appear on the wire. -/
theorem fixed_array_length_on_wire {α : Type} (e : α → EncRes)
    (d : List Nat → Except String (α × List Nat)) (N : Nat) (s : List α)
    (hlen : s.length = N) (hN : N ≤ i32MAX) :
    fixedArrayEncode e N s = wseq (varIntEncode (N : Int)) (encodeList e s) ∧
    (∀ (r : List Nat) (len : Int) (rest : List Nat), varIntDecode r = .ok (len, rest) →
      (len = (N : Int) → fixedArrayDecode d N r = decodeN d N rest) ∧
      (len ≠ (N : Int) →
        fixedArrayDecode d N r =
          .error "Length of array is out of bounds while decoding")) := by
  subst hlen
  constructor
  · simp [fixedArrayEncode, encode_array_bounded, hN]
  · intro r len rest h
    constructor
    · intro hEq
      subst hEq
      simp [fixedArrayDecode, decode_array_bounded, h]
    · intro hne
      have hd : fixedArrayDecode d s.length r =
          if 0 ≤ len ∧ s.length ≤ len.toNat ∧ len.toNat ≤ s.length then
            decodeN d len.toNat rest
          else .error "Length of array is out of bounds while decoding" := by
        unfold fixedArrayDecode decode_array_bounded; rw [h]
      rw [hd, if_neg]
      intro hc
      omega

/-- Claim C1 witness: a fixed array of 4 one-byte elements takes the encode
equation, with the VarInt length 4 leading the element bytes. -/
theorem fixed_array_length_on_wire_witness :
    (([1, 2, 3, 4] : List Nat).length = 4 ∧ (4 : Nat) ≤ i32MAX) ∧
    fixedArrayEncode (uEncode 1) 4 [1, 2, 3, 4] =
      wseq (varIntEncode (4 : Int)) (encodeList (uEncode 1) [1, 2, 3, 4]) := by
  refine ⟨⟨rfl, by decide⟩, ?_⟩
  exact (fixed_array_length_on_wire (uEncode 1) (uDecode 1) 4 [1, 2, 3, 4] rfl
    (by decide)).1

/-- Claim C1 counterexample: encoding the fixed-size array [1, 2, 3, 4] of
one-byte elements does not produce the bare element bytes — the VarInt
length 4 leads them — and decoding the bare element bytes fails while the
length-headed bytes succeed. -/
theorem fixed_array_length_on_wire_ce :
    (fixedArrayEncode (uEncode 1) 4 [1, 2, 3, 4]).1 ≠
      (encodeList (uEncode 1) [1, 2, 3, 4]).1 ∧
    (fixedArrayEncode (uEncode 1) 4 [1, 2, 3, 4]).1 =
      4 :: (encodeList (uEncode 1) [1, 2, 3, 4]).1 ∧
    fixedArrayDecode (uDecode 1) 4 [1, 2, 3, 4] =
      .error "Length of array is out of bounds while decoding" ∧
    fixedArrayDecode (uDecode 1) 4 [4, 1, 2, 3, 4] = .ok ([1, 2, 3, 4], []) :=
  ⟨by decide, rfl, rfl, rfl⟩

/-- Claim C3: before its element loop the array decoder reserves capacity for
only min(length, MAX_PACKET_SIZE / max(element size, 1)) elements — never
more than one packet worth of bytes — instead of the full claimed length, and
a VarInt length claiming 10,000,000 eight-byte elements backed by 10 actual
bytes fails with the truncation error, the reservation having been capped at
262,143 elements. -/
theorem alloc_guard_cap :
    (∀ es len : Nat, decodeCap es len ≤ len) ∧
    (∀ es len : Nat, decodeCap es len * max es 1 ≤ MAX_PACKET_SIZE) ∧
    decodeCap 8 10000000 = 262143 ∧
    decode_array_bounded (uDecode 8) 0 usizeMAX
      ((varIntEncode 10000000).1 ++ List.replicate 10 0) =
      .error "unexpected end of input" := by
  refine ⟨?_, ?_, by decide, ?_⟩
  · intro es len; exact min_le_right _ _
  · intro es len
    calc decodeCap es len * max es 1
        ≤ MAX_PACKET_SIZE / max es 1 * max es 1 :=
          Nat.mul_le_mul_right _ (min_le_left _ _)
      _ ≤ MAX_PACKET_SIZE := Nat.div_mul_le_self _ _
  · have e1 : uDecode 8 (List.replicate 10 0) = .ok (0, [0, 0]) := by rfl
    have e2 : uDecode 8 ([0, 0] : List Nat) = .error "unexpected end of input" := by rfl
    have h1 : varIntDecode ((varIntEncode ((10000000 : Nat) : Int)).1 ++
        List.replicate 10 0) = .ok (((10000000 : Nat) : Int), List.replicate 10 0) :=
      varIntDecode_varIntEncode 10000000 (by norm_num) _
    have hcast : ((10000000 : Nat) : Int) = (10000000 : Int) := by norm_num
    rw [hcast] at h1
    have s2 : decodeN (uDecode 8) 9999999 ([0, 0] : List Nat) =
        .error "unexpected end of input" := by
      rw [show (9999999 : Nat) = 9999998 + 1 by norm_num, decodeN_succ, e2]
    have s1 : decodeN (uDecode 8) 10000000 (List.replicate 10 0) =
        .error "unexpected end of input" := by
      rw [show (10000000 : Nat) = 9999999 + 1 by norm_num, decodeN_succ, e1]
      simp only [s2]
    have hd : decode_array_bounded (uDecode 8) 0 usizeMAX
        ((varIntEncode 10000000).1 ++ List.replicate 10 0) =
        if 0 ≤ (10000000 : Int) ∧ 0 ≤ (10000000 : Int).toNat ∧
            (10000000 : Int).toNat ≤ usizeMAX then
          decodeN (uDecode 8) (10000000 : Int).toNat (List.replicate 10 0)
        else .error "Length of array is out of bounds while decoding" := by
      unfold decode_array_bounded; rw [h1]
    rw [hd, if_pos (by decide)]
    rw [show ((10000000 : Int)).toNat = 10000000 by rfl]
    exact s1

/-- Claim C4 (amended): bounded-string encode fails exactly when the Unicode
character count is outside [mn, mx] or the UTF-8 byte length exceeds the
VarInt maximum; on success the wire is the VarInt byte length followed by the
UTF-8 bytes; decode reads the byte array under byte-count bounds
[mn, mx*4 saturating], fails on invalid UTF-8, then fails exactly when the
decoded character count is outside [mn, mx]; three 3-byte characters pass
bounds [0, 3] both ways while four ASCII characters fail them. -/
theorem bounded_string_codec (mn mx : Nat) (s : List Nat)
    (hs : ∀ c ∈ s, c < 1114112) (hb : (utf8Encode s).length ≤ usizeMAX) :
    ((encode_string_bounded s mn mx).2 = none ↔
      (mn ≤ s.length ∧ s.length ≤ mx ∧ (utf8Encode s).length ≤ i32MAX)) ∧
    (mn ≤ s.length ∧ s.length ≤ mx → (utf8Encode s).length ≤ i32MAX →
      encode_string_bounded s mn mx =
        ((varIntEncode ((utf8Encode s).length : Int)).1 ++ utf8Encode s, none)) ∧
    (∀ (r : List Nat) (msg : String),
      decode_array_bounded (uDecode 1) mn (min (mx * 4) usizeMAX) r = .error msg →
      decode_string_bounded mn mx r = .error msg) ∧
    (∀ (r bytes rest : List Nat) (msg : String),
      decode_array_bounded (uDecode 1) mn (min (mx * 4) usizeMAX) r = .ok (bytes, rest) →
      utf8Decode bytes = .error msg → decode_string_bounded mn mx r = .error msg) ∧
    (∀ (r bytes rest cs : List Nat),
      decode_array_bounded (uDecode 1) mn (min (mx * 4) usizeMAX) r = .ok (bytes, rest) →
      utf8Decode bytes = .ok cs →
      ((decode_string_bounded mn mx r = .ok (cs, rest)) ↔
        (mn ≤ cs.length ∧ cs.length ≤ mx)) ∧
      (¬ (mn ≤ cs.length ∧ cs.length ≤ mx) →
        decode_string_bounded mn mx r =
          .error "Char count of string is out of bounds while decoding")) ∧
    ((encode_string_bounded [8364, 8364, 8364] 0 3).2 = none ∧
      (utf8Encode [8364, 8364, 8364]).length = 9) ∧
    (encode_string_bounded [97, 97, 97, 97] 0 3).2 =
      some "Char count of string is out of bounds while encoding" ∧
    decode_string_bounded 0 3 ((encode_string_bounded [8364, 8364, 8364] 0 3).1) =
      .ok ([8364, 8364, 8364], []) ∧
    decode_string_bounded 0 3 [4, 97, 97, 97, 97] =
      .error "Char count of string is out of bounds while decoding" := by
  have hlist := encodeList_bytes (utf8Encode s) (utf8Encode_lt s hs)
  refine ⟨?_, ?_, ?_, ?_, ?_, ⟨by rfl, by rfl⟩, by rfl, by rfl, by rfl⟩
  · by_cases hcc : mn ≤ s.length ∧ s.length ≤ mx
    · by_cases hi : (utf8Encode s).length ≤ i32MAX
      · simp [encode_string_bounded, hcc, encode_array_bounded, hb, hi, hlist,
          wseq, varIntEncode]
      · simp [encode_string_bounded, hcc, encode_array_bounded, hb, hi]
    · simp [encode_string_bounded, hcc]
      intro ha hb2
      exact absurd ⟨ha, hb2⟩ hcc
  · intro hcc hi
    simp [encode_string_bounded, hcc, encode_array_bounded, hb, hi, hlist,
      wseq, varIntEncode]
  · intro r msg h
    unfold decode_string_bounded
    rw [h]
  · intro r bytes rest msg h h2
    have hd : decode_string_bounded mn mx r =
        match utf8Decode bytes with
        | .error e => .error e
        | .ok s2 =>
          if mn ≤ s2.length ∧ s2.length ≤ mx then .ok (s2, rest)
          else .error "Char count of string is out of bounds while decoding" := by
      unfold decode_string_bounded; rw [h]
    rw [hd, h2]
  · intro r bytes rest cs h h2
    have hd0 : decode_string_bounded mn mx r =
        match utf8Decode bytes with
        | .error e => .error e
        | .ok s2 =>
          if mn ≤ s2.length ∧ s2.length ≤ mx then .ok (s2, rest)
          else .error "Char count of string is out of bounds while decoding" := by
      unfold decode_string_bounded; rw [h]
    have hd : decode_string_bounded mn mx r =
        if mn ≤ cs.length ∧ cs.length ≤ mx then .ok (cs, rest)
        else .error "Char count of string is out of bounds while decoding" := by
      rw [hd0, h2]
    refine ⟨?_, ?_⟩
    · rw [hd]
      by_cases hcs : mn ≤ cs.length ∧ cs.length ≤ mx
      · simp [hcs]
      · simp [hcs]
    · intro hcs; rw [hd, if_neg hcs]

/-- Claim C4 witness: the three-euro-sign string under character bounds
[0, 3] satisfies the encode-success iff. -/
theorem bounded_string_codec_witness :
    ((∀ c ∈ ([8364, 8364, 8364] : List Nat), c < 1114112) ∧
      (utf8Encode [8364, 8364, 8364]).length ≤ usizeMAX) ∧
    ((encode_string_bounded [8364, 8364, 8364] 0 3).2 = none ↔
      (0 ≤ ([8364, 8364, 8364] : List Nat).length ∧
        ([8364, 8364, 8364] : List Nat).length ≤ 3 ∧
        (utf8Encode [8364, 8364, 8364]).length ≤ i32MAX)) := by
  refine ⟨⟨by decide, by decide⟩, ?_⟩
  exact (bounded_string_codec 0 3 [8364, 8364, 8364] (by decide) (by decide)).1

/-- Helper: an all-ASCII string whose length stays inside the character
bounds but exceeds the VarInt maximum still fails to encode, at the inner
array length check. -/
theorem encode_string_ascii_overflow (n mx : Nat) (hn : n ≤ mx)
    (hbig : ¬ n ≤ i32MAX) (hus : n ≤ usizeMAX) :
    (encode_string_bounded (List.replicate n 97) 0 mx).2 =
      some "Length of array exceeds i32::MAX" := by
  have hlen : (List.replicate n (97 : Nat)).length = n := List.length_replicate _ _
  have he := utf8Encode_replicate_97 n
  have hcc : 0 ≤ (List.replicate n (97 : Nat)).length ∧
      (List.replicate n (97 : Nat)).length ≤ mx := by
    refine ⟨Nat.zero_le _, ?_⟩
    rw [hlen]; exact hn
  show (if 0 ≤ (List.replicate n (97 : Nat)).length ∧
        (List.replicate n (97 : Nat)).length ≤ mx then
          encode_array_bounded (uEncode 1) (utf8Encode (List.replicate n 97)) 0 usizeMAX
        else ([], some "Char count of string is out of bounds while encoding")).2 =
      some "Length of array exceeds i32::MAX"
  rw [if_pos hcc, he]
  show (if 0 ≤ (List.replicate n (97 : Nat)).length ∧
        (List.replicate n (97 : Nat)).length ≤ usizeMAX then
          if (List.replicate n (97 : Nat)).length ≤ i32MAX then
            wseq (varIntEncode ((List.replicate n (97 : Nat)).length : Int))
              (encodeList (uEncode 1) (List.replicate n 97))
          else ([], some "Length of array exceeds i32::MAX")
        else ([], some "Length of array is out of bounds while encoding")).2 =
      some "Length of array exceeds i32::MAX"
  rw [if_pos ⟨Nat.zero_le _, by rw [hlen]; exact hus⟩,
    if_neg (by rw [hlen]; exact hbig)]

/-- Claim C4 counterexample: under character bounds [0, 2^31] the all-ASCII
string of 2^31 characters has its character count inside the bounds, yet
encoding fails, because the UTF-8 byte length exceeds the VarInt maximum —
so encode failure is not equivalent to a character-count bounds violation. -/
theorem string_encode_iff_ce :
    ((0 : Nat) ≤ (List.replicate (2 ^ 31) (97 : Nat)).length ∧
      (List.replicate (2 ^ 31) (97 : Nat)).length ≤ 2 ^ 31) ∧
    (encode_string_bounded (List.replicate (2 ^ 31) 97) 0 (2 ^ 31)).2 ≠ none := by
  refine ⟨⟨Nat.zero_le _, le_of_eq (List.length_replicate _ _)⟩, ?_⟩
  have h := encode_string_ascii_overflow (2 ^ 31) (2 ^ 31) (le_refl _)
    (by unfold i32MAX; norm_num) (by unfold usizeMAX; norm_num)
  rw [h]
  exact fun hx => Option.noConfusion hx

end Valence
